import Mathlib

/-!
Shallow embedding of the `catalyst` data-marshalling engine
(`src/catalyst/catalyst.py`, `src/catalyst/fields.py`, `src/catalyst/utils.py`):
fields with formatter/parser/validators, the schema orchestration engine
(`_process_one`, `_process_many`, `_process_flow`), the result model, and
the constructor checks.  Python values are modelled by the inductive `Val`;
raised exceptions are modelled as `Except` errors whose payload is a `Val`
(a `ValidationError` carrying either a message string or a nested result).
-/

namespace Fossen

/-- Python runtime values used by the engine: `None`, the `missing` sentinel
(`utils.py`), ints, strings, bools, string-keyed dicts, int-keyed dicts
(batch error mappings), lists, exception objects (`ValidationError(msg)`
with an arbitrary payload, or any other exception identified by a tag), and
`CatalystResult(valid_data, errors, invalid_data)` objects. -/
inductive Val where
  | vnone : Val
  | vmissing : Val
  | vint : Int → Val
  | vstr : String → Val
  | vbool : Bool → Val
  | vdict : List (String × Val) → Val
  | vidict : List (Nat × Val) → Val
  | vlist : List Val → Val
  | vexcValidation : Val → Val
  | vexcOther : String → Val
  | vresult : Val → Val → Val → Val

/-- Python dict lookup (first binding wins; our dicts never hold duplicate
keys, mirroring Python dict semantics). -/
def dget {κ α : Type} [DecidableEq κ] : List (κ × α) → κ → Option α
  | [], _ => none
  | (k', v) :: rest, k => if k' = k then some v else dget rest k

/-- Python dict assignment `m[k] = v`: replace the value in place if the key
exists, else append the new pair at the end (insertion order preserved). -/
def dset {κ α : Type} [DecidableEq κ] : List (κ × α) → κ → α → List (κ × α)
  | [], k, v => [(k, v)]
  | (k', v') :: rest, k, v =>
    if k' = k then (k', v) :: rest else (k', v') :: dset rest k v

/-- Python truthiness test (`not x`) for the values that reach a truthiness
check in the engine: `None` and empty collections are falsy. -/
def Val.falsy : Val → Bool
  | .vnone => true
  | .vdict m => m.isEmpty
  | .vidict m => m.isEmpty
  | .vlist l => l.isEmpty
  | .vstr s => s.isEmpty
  | .vint n => n = 0
  | .vbool b => !b
  | _ => false

/-- Identity test `value is None` (`fields.py`). -/
def Val.isNone : Val → Bool
  | .vnone => true
  | _ => false

/-- Identity test `raw_value is missing` (`catalyst.py`, line 208). -/
def Val.isMissing : Val → Bool
  | .vmissing => true
  | _ => false

/-- A formatter, parser or field method: a fallible transform.  A raised
exception is an `Except.error` whose payload is the exception object. -/
abbrev Transform := Val → Except Val Val

/-- A validator: runs for effect, raises on rejection (`fields.py`). -/
abbrev ValidatorFn := Val → Except Val Unit

/-- `Field.Options` (`fields.py`, lines 26-40) with its declared defaults:
identity formatter/parser (`no_processing`), `format_none`/`parse_none`
false, `dump_required` true, `load_required` false, both defaults the
`missing` sentinel, `no_dump`/`no_load` false, no validators, `allow_none`
true.  A Python default may also be a zero-argument producer resolved by
the `dump_default`/`load_default` properties; `Val` has no callables, so
every modelled default is a plain value. -/
structure FieldOptions where
  formatter : Transform := fun v => .ok v
  format_none : Bool := false
  dump_required : Bool := true
  dump_default : Val := .vmissing
  no_dump : Bool := false
  parser : Transform := fun v => .ok v
  parse_none : Bool := false
  load_required : Bool := false
  load_default : Val := .vmissing
  no_load : Bool := false
  validators : List ValidatorFn := []
  allow_none : Bool := true

/-- The default error message table of `Field`
(`fields.py`, lines 21-24, merged by `collect_error_messages`). -/
def defaultErrorMessages : List (String × String) :=
  [("required", "Missing data for required field."),
   ("none", "Field may not be None.")]

/-- A `Field` (`fields.py`): identity `(name, key)`, options, and the merged
error-message table. -/
structure Field where
  name : String
  key : String
  opts : FieldOptions := {}
  error_messages : List (String × String) := defaultErrorMessages

/-- Modelled from the spec: `ErrorMessageMixin.get_error` builds (rather than
raises) the `ValidationError` whose message is looked up in the merged
error-message table, falling back to the unknown-error text; only the
raising variant `error` appears in `src/catalyst/utils.py` (lines 50-54),
and `catalyst.py` line 210 calls `field.get_error('required')`. -/
def Field.get_error (f : Field) (key : String) : Val :=
  .vexcValidation (.vstr ((dget f.error_messages key).getD "Unknown error."))

/-- Run validators in declaration order, stopping at the first failure
(`fields.py`, lines 124-125). -/
def runValidators : List ValidatorFn → Val → Except Val Unit
  | [], _ => .ok ()
  | f :: rest, value =>
    match f value with
    | .ok _ => runValidators rest value
    | .error e => .error e

/-- `Field.validate` (`fields.py`, lines 119-126): `None` passes through when
`allow_none`, else raises the `none`-kind error; otherwise every validator
runs in order and the input value itself is returned. -/
def Field.validate (f : Field) (value : Val) : Except Val Val :=
  match value with
  | .vnone =>
    if f.opts.allow_none then .ok .vnone else .error (f.get_error "none")
  | v =>
    match runValidators f.opts.validators v with
    | .ok _ => .ok v
    | .error e => .error e

/-- `Field.format` (`fields.py`, lines 128-132): `None` short-circuits unless
`format_none`, else the formatter is applied. -/
def Field.format (f : Field) (value : Val) : Except Val Val :=
  match value, f.opts.format_none with
  | .vnone, false => .ok .vnone
  | v, _ => f.opts.formatter v

/-- `Field.dump` (`fields.py`, lines 134-137): validate, then format the
original value. -/
def Field.dump (f : Field) (value : Val) : Except Val Val := do
  let _ ← f.validate value
  f.format value

/-- `Field.parse` (`fields.py`, lines 139-143): `None` short-circuits unless
`parse_none`, else the parser is applied. -/
def Field.parse (f : Field) (value : Val) : Except Val Val :=
  match value, f.opts.parse_none with
  | .vnone, false => .ok .vnone
  | v, _ => f.opts.parser v

/-- `Field.load` (`fields.py`, lines 145-148): parse, validate the parsed
value for effect, and return the parsed value. -/
def Field.load (f : Field) (value : Val) : Except Val Val := do
  let value ← f.parse value
  let _ ← f.validate value
  pure value

/-- `getattr(field, method)(raw_value)` (`catalyst.py`, line 215), restricted
to the method names the constructor admits. -/
def Field.applyMethod (f : Field) (method : String) (v : Val) : Except Val Val :=
  if method = "dump" then f.dump v
  else if method = "format" then f.format v
  else if method = "validate" then f.validate v
  else if method = "load" then f.load v
  else if method = "parse" then f.parse v
  else .error (.vexcOther "AttributeError")

/-- The processing direction (`name` argument of `_process_flow`,
`'dump'` or `'load'`). -/
inductive Direction where
  | dump : Direction
  | load : Direction
deriving DecidableEq

/-- A schema instance (`BaseCatalyst`, `catalyst.py`): the two filtered field
registries, the option values from `BaseCatalyst.Options` (lines 22-28:
`dump_method = 'format'`, `load_method = 'load'`, `raise_error = False`,
`all_errors = True`), and the eight pre/post hooks, identity
(`no_processing`) by default (lines 300-330). -/
structure Catalyst where
  dump_field_dict : List Field
  load_field_dict : List Field
  dump_method : String := "format"
  load_method : String := "load"
  raise_error : Bool := false
  all_errors : Bool := true
  pre_dump : Transform := fun v => .ok v
  post_dump : Transform := fun v => .ok v
  pre_load : Transform := fun v => .ok v
  post_load : Transform := fun v => .ok v
  pre_dump_many : Transform := fun v => .ok v
  post_dump_many : Transform := fun v => .ok v
  pre_load_many : Transform := fun v => .ok v
  post_load_many : Transform := fun v => .ok v

/-- A schema with the given field registry in both directions and every
option left at its declared default. -/
def mkCatalyst (fs : List Field) : Catalyst :=
  { dump_field_dict := fs, load_field_dict := fs }

/-- The per-direction field registry (`catalyst.py`, lines 181 and 187). -/
def Catalyst.fieldDict (c : Catalyst) : Direction → List Field
  | .dump => c.dump_field_dict
  | .load => c.load_field_dict

/-- The per-direction field method name (`catalyst.py`, lines 183 and 189). -/
def Catalyst.methodOf (c : Catalyst) : Direction → String
  | .dump => c.dump_method
  | .load => c.load_method

/-- The field's source identifier (`catalyst.py`, lines 179 and 185:
dump source = `name`, load source = `key`). -/
def Direction.sourceAttr : Direction → Field → String
  | .dump, f => f.name
  | .load, f => f.key

/-- The field's target identifier (`catalyst.py`, lines 180 and 186:
dump target = `key`, load target = `name`). -/
def Direction.targetAttr : Direction → Field → String
  | .dump, f => f.key
  | .load, f => f.name

/-- `getattr(field.opts, f'{name}_required')` (`catalyst.py`, line 199). -/
def Direction.requiredOf : Direction → Field → Bool
  | .dump, f => f.opts.dump_required
  | .load, f => f.opts.load_required

/-- `getattr(field, f'{name}_default')` (`catalyst.py`, line 200), the
resolved per-direction default; callable (producer) defaults do not arise
in the modelled value space, so the property is the plain option value. -/
def Direction.defaultOf : Direction → Field → Val
  | .dump, f => f.opts.dump_default
  | .load, f => f.opts.load_default

/-- Modelled from the spec: the getter strategies `assign_attr_or_item_getter`
and `assign_item_getter` are imported by `catalyst.py` but absent from
`src/catalyst/utils.py`; per spec section 4.4 the getter pulls the named
value out of `data`, substituting the per-direction default when absent.
Both strategies are modelled as mapping access (in-memory objects are
modelled as dicts). -/
def getValue (data : Val) (source : String) (default : Val) : Val :=
  match data with
  | .vdict m => (dget m source).getD default
  | _ => default

/-- The `except` clause of `_process_one` (`catalyst.py`, lines 216-225): a
`ValidationError` whose `msg` is a `CatalystResult` has its nested
`valid_data` spliced in at the field's target key and its nested
`errors`/`invalid_data` spliced in at the field's source key; any other
exception is recorded as the error with the raw input echoed as invalid
data, both at the source key. -/
def catchErr (valid errors invalid : List (String × Val))
    (source target : String) (raw e : Val) :
    List (String × Val) × List (String × Val) × List (String × Val) :=
  match e with
  | .vexcValidation (.vresult vd er iv) =>
    (dset valid target vd, dset errors source er, dset invalid source iv)
  | _ => (valid, dset errors source e, dset invalid source raw)

/-- Test distinguishing the two arms of `catchErr`
(`isinstance(e, ValidationError) and isinstance(e.msg, CatalystResult)`,
`catalyst.py` line 218). -/
def isNestedResultErr : Val → Bool
  | .vexcValidation (.vresult _ _ _) => true
  | _ => false

/-- The field loop of `_process_one` (`catalyst.py`, lines 198-227): fetch
the raw value (default-substituted); a `missing` value records a
`required` error when the field is required and is skipped otherwise; an
applied method stores its result at the target key on success and is
routed through `catchErr` on failure; `all_errors = false` stops the loop
at the first error. -/
def processFields (c : Catalyst) (d : Direction) (data : Val)
    (all_errors : Bool) :
    List Field →
    List (String × Val) × List (String × Val) × List (String × Val) →
    List (String × Val) × List (String × Val) × List (String × Val)
  | [], acc => acc
  | f :: rest, (valid, errors, invalid) =>
    let source := d.sourceAttr f
    let target := d.targetAttr f
    let raw := getValue data source (d.defaultOf f)
    if raw.isMissing then
      if d.requiredOf f then
        let errors := dset errors source (f.get_error "required")
        if all_errors then processFields c d data all_errors rest (valid, errors, invalid)
        else (valid, errors, invalid)
      else processFields c d data all_errors rest (valid, errors, invalid)
    else
      match f.applyMethod (c.methodOf d) raw with
      | .ok v =>
        processFields c d data all_errors rest (dset valid target v, errors, invalid)
      | .error e =>
        let acc := catchErr valid errors invalid source target raw e
        if all_errors then processFields c d data all_errors rest acc
        else acc

/-- `_process_one` (`catalyst.py`, lines 177-229): run the field loop over
the direction's registry starting from empty accumulators. -/
def processOne (c : Catalyst) (d : Direction) (data : Val) (all_errors : Bool) :
    List (String × Val) × List (String × Val) × List (String × Val) :=
  processFields c d data all_errors (c.fieldDict d) ([], [], [])

/-- `_side_effect` (`catalyst.py`, lines 116-134): run a hook; on success the
hook's result becomes the valid data with `None` errors and invalid data;
on failure the raised exception is recorded under the hook's error key and
the input is echoed as invalid data. -/
def sideEffect (handle : Transform) (errKey : String) (data : Val) :
    Val × Val × Val :=
  match handle data with
  | .ok v => (v, .vnone, .vnone)
  | .error e => (.vnone, .vdict [(errKey, e)], data)

/-- The pre hook and its error key for a direction, single-item arity. -/
def Catalyst.preHookOne (c : Catalyst) : Direction → Transform × String
  | .dump => (c.pre_dump, "pre_dump")
  | .load => (c.pre_load, "pre_load")

/-- The post hook and its error key for a direction, single-item arity. -/
def Catalyst.postHookOne (c : Catalyst) : Direction → Transform × String
  | .dump => (c.post_dump, "post_dump")
  | .load => (c.post_load, "post_load")

/-- The pre hook and its error key for a direction, batch arity. -/
def Catalyst.preHookMany (c : Catalyst) : Direction → Transform × String
  | .dump => (c.pre_dump_many, "pre_dump_many")
  | .load => (c.pre_load_many, "pre_load_many")

/-- The post hook and its error key for a direction, batch arity. -/
def Catalyst.postHookMany (c : Catalyst) : Direction → Transform × String
  | .dump => (c.post_dump_many, "post_dump_many")
  | .load => (c.post_load_many, "post_load_many")

/-- A `CatalystResult` (`DumpResult`/`LoadResult`): the `(valid_data,
errors, invalid_data)` triple built at `catalyst.py` line 172.  The class
bodies beyond `LoadResult` (`src/catalyst/utils.py`, lines 6-29) are not
under `src/`; per the spec's result model the record holds the three
components and `is_valid` holds exactly when `errors` is empty. -/
structure CatResult where
  valid_data : Val
  errors : Val
  invalid_data : Val

/-- `is_valid` (`utils.py`, lines 27-29): `not self.errors`. -/
def CatResult.is_valid (r : CatResult) : Bool := r.errors.falsy

/-- Modelled from the spec: `OptionBox.get` (absent from
`src/catalyst/utils.py`) resolves an option to the override when one is
supplied and to the declared default otherwise (`catalyst.py`, lines
161-162, spec section 4.1); the unset sentinel is `none`. -/
def optGet {α : Type} (override : Option α) (default : α) : α :=
  override.getD default

/-- The single-item body of `_process_flow` (`catalyst.py`, lines 164-172):
pre hook, then `_process_one` if the pre hook succeeded, then the post
hook if processing produced no errors; the current triple becomes the
result. -/
def flowResultOne (c : Catalyst) (d : Direction) (data : Val)
    (all_errors : Bool) : CatResult :=
  let pre := c.preHookOne d
  let (valid, errors, invalid) := sideEffect pre.1 pre.2 data
  if errors.falsy then
    let (v, e, i) := processOne c d valid all_errors
    let (valid, errors, invalid) := (Val.vdict v, Val.vdict e, Val.vdict i)
    if errors.falsy then
      let post := c.postHookOne d
      let (valid, errors, invalid) := sideEffect post.1 post.2 valid
      ⟨valid, errors, invalid⟩
    else ⟨valid, errors, invalid⟩
  else ⟨valid, errors, invalid⟩

/-- `_process_flow` with `many = False` (`catalyst.py`, lines 136-175):
resolve `raise_error`/`all_errors` through the option box, build the
result, and raise `ValidationError(result)` (the `Except.error` branch)
when errors exist and `raise_error` holds. -/
def processFlowOne (c : Catalyst) (d : Direction) (data : Val)
    (raise_error all_errors : Option Bool) : Except CatResult CatResult :=
  let ae := optGet all_errors c.all_errors
  let re := optGet raise_error c.raise_error
  let r := flowResultOne c d data ae
  if !r.errors.falsy && re then .error r else .ok r

/-- `Catalyst.dump` (`catalyst.py`, lines 262-268). -/
def Catalyst.dump (c : Catalyst) (data : Val)
    (raise_error all_errors : Option Bool) : Except CatResult CatResult :=
  processFlowOne c .dump data raise_error all_errors

/-- `Catalyst.load` (`catalyst.py`, lines 270-276). -/
def Catalyst.load (c : Catalyst) (data : Val)
    (raise_error all_errors : Option Bool) : Except CatResult CatResult :=
  processFlowOne c .load data raise_error all_errors

/-- The item loop of `_process_many` (`catalyst.py`, lines 233-240): each
item goes through the full single-item flow with `raise_error` forced
false; the item's valid data is appended positionally; a failing item's
errors and invalid data are recorded under its index; `all_errors =
false` stops the iteration at the first failing item. -/
def manyLoop (c : Catalyst) (d : Direction) (all_errors : Bool) :
    List Val → Nat →
    List Val × List (Nat × Val) × List (Nat × Val) →
    List Val × List (Nat × Val) × List (Nat × Val)
  | [], _, acc => acc
  | item :: rest, i, (vs, es, inv) =>
    match processFlowOne c d item (some false) (some all_errors) with
    | .ok r | .error r =>
      let vs := vs ++ [r.valid_data]
      if r.is_valid then manyLoop c d all_errors rest (i + 1) (vs, es, inv)
      else
        let es := dset es i r.errors
        let inv := dset inv i r.invalid_data
        if all_errors then manyLoop c d all_errors rest (i + 1) (vs, es, inv)
        else (vs, es, inv)

/-- `_process_many` (`catalyst.py`, lines 231-241) on a sequence value;
non-sequence inputs do not arise in the modelled value space. -/
def processMany (c : Catalyst) (d : Direction) (data : Val)
    (all_errors : Bool) : Val × Val × Val :=
  match data with
  | .vlist items =>
    let (vs, es, inv) := manyLoop c d all_errors items 0 ([], [], [])
    (.vlist vs, .vidict es, .vidict inv)
  | _ => (.vlist [], .vidict [], .vidict [])

/-- The batch body of `_process_flow` (`catalyst.py`, lines 164-172 with
`handle = _process_many`). -/
def flowResultMany (c : Catalyst) (d : Direction) (data : Val)
    (all_errors : Bool) : CatResult :=
  let pre := c.preHookMany d
  let (valid, errors, invalid) := sideEffect pre.1 pre.2 data
  if errors.falsy then
    let (v, e, i) := processMany c d valid all_errors
    let (valid, errors, invalid) := (v, e, i)
    if errors.falsy then
      let post := c.postHookMany d
      let (valid, errors, invalid) := sideEffect post.1 post.2 valid
      ⟨valid, errors, invalid⟩
    else ⟨valid, errors, invalid⟩
  else ⟨valid, errors, invalid⟩

/-- `_process_flow` with `many = True` (`catalyst.py`, lines 136-175). -/
def processFlowMany (c : Catalyst) (d : Direction) (data : Val)
    (raise_error all_errors : Option Bool) : Except CatResult CatResult :=
  let ae := optGet all_errors c.all_errors
  let re := optGet raise_error c.raise_error
  let r := flowResultMany c d data ae
  if !r.errors.falsy && re then .error r else .ok r

/-- `Catalyst.dump_many` (`catalyst.py`, lines 278-284). -/
def Catalyst.dump_many (c : Catalyst) (data : Val)
    (raise_error all_errors : Option Bool) : Except CatResult CatResult :=
  processFlowMany c .dump data raise_error all_errors

/-- `Catalyst.load_many` (`catalyst.py`, lines 286-292). -/
def Catalyst.load_many (c : Catalyst) (data : Val)
    (raise_error all_errors : Option Bool) : Except CatResult CatResult :=
  processFlowMany c .load data raise_error all_errors

/-- `NestedField` (`fields.py`, lines 309-321): its formatter dumps through
the inner schema with `raise_error = True` and extracts `valid_data`; its
parser loads likewise.  A raised `ValidationError(result)` is the
`Except.error` payload `vexcValidation (vresult ...)`. -/
def nestedField (inner : Catalyst) (name key : String) : Field :=
  { name := name
    key := key
    opts :=
      { formatter := fun v =>
          match inner.dump v (some true) none with
          | .ok r => .ok r.valid_data
          | .error r => .error (.vexcValidation (.vresult r.valid_data r.errors r.invalid_data))
        parser := fun v =>
          match inner.load v (some true) none with
          | .ok r => .ok r.valid_data
          | .error r => .error (.vexcValidation (.vresult r.valid_data r.errors r.invalid_data)) } }

/-- Exceptions the constructor can raise (`catalyst.py`, lines 56-100):
`ValueError` from the method checks, `KeyError` from `_copy_fields` when a
requested field name is not declared. -/
inductive InitError where
  | valueError : InitError
  | keyError : InitError
deriving DecidableEq

/-- `_copy_fields` (`catalyst.py`, lines 42-50): iterate the requested keys;
each key is looked up in the declared field dict (a missing key raises
`KeyError`) and copied when the predicate admits it. -/
def copyFields (fd : List (String × Field)) (keep : Field → Bool) :
    List String → List (String × Field) → Except InitError (List (String × Field))
  | [], acc => .ok acc
  | k :: rest, acc =>
    match dget fd k with
    | none => .error .keyError
    | some f => copyFields fd keep rest (if keep f then dset acc k f else acc)

/-- Python falsiness of an optional name list (`if not fields`,
`catalyst.py` lines 72-77): `None` and the empty iterable both fall back. -/
def orKeys (arg : Option (List String)) (fallback : List String) : List String :=
  match arg with
  | none => fallback
  | some [] => fallback
  | some l => l

/-- `BaseCatalyst.__init__` (`catalyst.py`, lines 56-100) without an external
`schema` source: default the name subsets, build the two filtered
registries, resolve the options, and check that the effective
`dump_method` is one of `dump`/`format`/`validate` and the effective
`load_method` one of `load`/`parse`/`validate`, raising `ValueError`
otherwise.  The unordered `set(...)` of declared names is modelled as the
declaration-ordered name list. -/
def catalystInit (field_dict : List (String × Field))
    (fields dump_fields load_fields : Option (List String))
    (raise_error all_errors : Option Bool)
    (dump_method load_method : Option String) : Except InitError Catalyst :=
  let fieldNames := orKeys fields (field_dict.map Prod.fst)
  let dumpNames := orKeys dump_fields fieldNames
  let loadNames := orKeys load_fields fieldNames
  match copyFields field_dict (fun f => !f.opts.no_dump) dumpNames [] with
  | .error e => .error e
  | .ok dumpDict =>
    match copyFields field_dict (fun f => !f.opts.no_load) loadNames [] with
    | .error e => .error e
    | .ok loadDict =>
      let dm := optGet dump_method "format"
      let lm := optGet load_method "load"
      if dm ≠ "dump" ∧ dm ≠ "format" ∧ dm ≠ "validate" then .error .valueError
      else if lm ≠ "load" ∧ lm ≠ "parse" ∧ lm ≠ "validate" then .error .valueError
      else .ok
        { dump_field_dict := dumpDict.map Prod.snd
          load_field_dict := loadDict.map Prod.snd
          dump_method := dm
          load_method := lm
          raise_error := optGet raise_error false
          all_errors := optGet all_errors true }

/-! ## Helper lemmas -/

/-- `validate` never transforms an accepted value: whatever it returns with
`ok` is the input itself. -/
theorem validate_ok_identity (f : Field) (v w : Val)
    (h : f.validate v = .ok w) : w = v := by
  unfold Field.validate at h
  split at h
  · split at h
    · exact (Except.ok.injEq _ _ ▸ h).symm
    · exact absurd h (by simp)
  · split at h
    · exact (Except.ok.injEq _ _ ▸ h).symm
    · exact absurd h (by simp)

/-- Dict lookup after an append, when the left part misses the key. -/
theorem dget_append_right {κ α : Type} [DecidableEq κ]
    (l₁ l₂ : List (κ × α)) (k : κ) (h : dget l₁ k = none) :
    dget (l₁ ++ l₂) k = dget l₂ k := by
  induction l₁ with
  | nil => rfl
  | cons p rest ih =>
    obtain ⟨k', v⟩ := p
    simp only [dget] at h
    by_cases hik : k' = k
    · simp [hik] at h
    · simp only [List.cons_append, dget, if_neg hik] at h ⊢
      exact ih h

/-- Assignment of an absent key appends the binding at the end. -/
theorem dset_append {κ α : Type} [DecidableEq κ]
    (m : List (κ × α)) (k : κ) (v : α) (h : dget m k = none) :
    dset m k v = m ++ [(k, v)] := by
  induction m with
  | nil => rfl
  | cons p rest ih =>
    obtain ⟨k', v'⟩ := p
    simp only [dget] at h
    by_cases hik : k' = k
    · simp [hik] at h
    · simp only [if_neg hik] at h
      simp only [dset, if_neg hik, List.cons_append]
      exact congrArg (List.cons (k', v')) (ih h)

/-- In a dict with pairwise-distinct keys, every stored pair is found at its
own key. -/
theorem dget_of_nodup {κ α : Type} [DecidableEq κ] :
    ∀ (l : List (κ × α)), (l.map Prod.fst).Nodup →
    ∀ p ∈ l, dget l p.1 = some p.2 := by
  intro l
  induction l with
  | nil => intro _ p hp; cases hp
  | cons q rest ih =>
    obtain ⟨qk, qv⟩ := q
    intro hnd p hp
    have hnd' := List.nodup_cons.mp hnd
    cases hp with
    | head => simp [dget]
    | tail _ hp =>
      have hne : qk ≠ p.1 := by
        intro hEq
        apply hnd'.1
        rw [hEq]
        exact List.mem_map.mpr ⟨p, hp, rfl⟩
      simpa [dget, hne] using ih hnd'.2 p hp

/-- With an identity formatter, `format` is the identity on every value. -/
theorem format_id (f : Field) (hf : ∀ u, f.opts.formatter u = .ok u)
    (v : Val) : f.format v = .ok v := by
  unfold Field.format
  split
  · rfl
  · exact hf _

/-- With an identity parser, `parse` is the identity on every value. -/
theorem parse_id (f : Field) (hp : ∀ u, f.opts.parser u = .ok u)
    (v : Val) : f.parse v = .ok v := by
  unfold Field.parse
  split
  · rfl
  · exact hp _

/-- With an identity parser and a validator run that accepts, `load` is the
identity. -/
theorem load_id (f : Field) (v : Val) (hp : ∀ u, f.opts.parser u = .ok u)
    (hv : (f.validate v).isOk = true) : f.load v = .ok v := by
  unfold Field.load
  rw [parse_id f hp v]
  cases hVal : f.validate v with
  | ok w => simp [Bind.bind, Except.bind, hVal, Functor.map, Except.map, Pure.pure, Except.pure]
  | error e => rw [hVal] at hv; simp [Except.isOk, Except.toBool] at hv

/-- Method dispatch at `'format'` selects `Field.format`. -/
theorem applyMethod_format (f : Field) (v : Val) :
    f.applyMethod "format" v = f.format v := by
  simp [Field.applyMethod]

/-- Method dispatch at `'load'` selects `Field.load`. -/
theorem applyMethod_load (f : Field) (v : Val) :
    f.applyMethod "load" v = f.load v := by
  simp [Field.applyMethod]

/-- When the effective `raise_error` is false the flow returns the result of
the single-item body without raising. -/
theorem processFlowOne_ok (c : Catalyst) (d : Direction) (data : Val)
    (re ae : Option Bool) (hre : optGet re c.raise_error = false) :
    processFlowOne c d data re ae =
      .ok (flowResultOne c d data (optGet ae c.all_errors)) := by
  simp [processFlowOne, hre]

/-- When the pre hook accepts the data unchanged and the post hook is the
identity, a fully successful `_process_one` makes the single-item flow
result carry the valid data with `None` errors and invalid data. -/
theorem flowResultOne_of_processOne (c : Catalyst) (d : Direction)
    (data : Val) (ae : Bool) (valid : List (String × Val))
    (hpre : (c.preHookOne d).1 data = .ok data)
    (hpost : ∀ u, (c.postHookOne d).1 u = .ok u)
    (h : processOne c d data ae = (valid, [], [])) :
    flowResultOne c d data ae = ⟨.vdict valid, .vnone, .vnone⟩ := by
  simp [flowResultOne, sideEffect, hpre, h, Val.falsy, hpost]

/-- When the pre hook accepts the data unchanged, a `_process_one` run that
collected errors makes the single-item flow result carry the triple
unchanged (the post hook is skipped). -/
theorem flowResultOne_of_processOne_err (c : Catalyst) (d : Direction)
    (data : Val) (ae : Bool)
    (valid errors invalid : List (String × Val))
    (hpre : (c.preHookOne d).1 data = .ok data)
    (h : processOne c d data ae = (valid, errors, invalid))
    (hne : errors ≠ []) :
    flowResultOne c d data ae =
      ⟨.vdict valid, .vdict errors, .vdict invalid⟩ := by
  simp [flowResultOne, sideEffect, hpre, h, Val.falsy, List.isEmpty_eq_true, hne]

/-- The field loop on fields whose raw values are present and whose method
application succeeds identically: every result lands at the field's
target key, in registry order, with no errors. -/
theorem processFields_all_ok (c : Catalyst) (d : Direction) (data : Val)
    (ae : Bool) :
    ∀ (todo : List (Field × Val)) (valid : List (String × Val)),
    (∀ p ∈ todo, getValue data (d.sourceAttr p.1) (d.defaultOf p.1) = p.2) →
    (∀ p ∈ todo, p.2.isMissing = false) →
    (∀ p ∈ todo, p.1.applyMethod (c.methodOf d) p.2 = .ok p.2) →
    (∀ p ∈ todo, dget valid (d.targetAttr p.1) = none) →
    (todo.map (fun p => d.targetAttr p.1)).Nodup →
    processFields c d data ae (todo.map Prod.fst) (valid, [], []) =
      (valid ++ todo.map (fun p => (d.targetAttr p.1, p.2)), [], []) := by
  intro todo
  induction todo with
  | nil => intro valid _ _ _ _ _; simp [processFields]
  | cons p rest ih =>
    intro valid hget hmiss happ hfresh hnd
    obtain ⟨f, v⟩ := p
    have hmem : (f, v) ∈ (f, v) :: rest := List.mem_cons_self _ _
    rw [List.map_cons] at hnd
    have hnd' := List.nodup_cons.mp hnd
    have hstep : dset valid (d.targetAttr f) v =
        valid ++ [(d.targetAttr f, v)] :=
      dset_append _ _ _ (hfresh (f, v) hmem)
    have hrec := ih (valid ++ [(d.targetAttr f, v)])
      (fun q hq => hget q (List.mem_cons_of_mem _ hq))
      (fun q hq => hmiss q (List.mem_cons_of_mem _ hq))
      (fun q hq => happ q (List.mem_cons_of_mem _ hq))
      (fun q hq => by
        rw [dget_append_right _ _ _ (hfresh q (List.mem_cons_of_mem _ hq))]
        have hne : d.targetAttr f ≠ d.targetAttr q.1 := by
          intro hEq
          apply hnd'.1
          rw [hEq]
          exact List.mem_map.mpr ⟨q, hq, rfl⟩
        simp [dget, hne])
      hnd'.2
    simp only [List.map_cons, processFields, hget (f, v) hmem,
      hmiss (f, v) hmem, happ (f, v) hmem, hstep, Bool.false_eq_true,
      if_false]
    rw [hrec]
    simp

/-- A default-option schema exposes the given registry in both directions. -/
theorem mkCatalyst_fieldDict (fs : List Field) (d : Direction) :
    (mkCatalyst fs).fieldDict d = fs := by
  cases d <;> rfl

/-- The default schema dump method is `'format'`. -/
theorem mkCatalyst_methodOf_dump (fs : List Field) :
    (mkCatalyst fs).methodOf .dump = "format" := rfl

/-- The default schema load method is `'load'`. -/
theorem mkCatalyst_methodOf_load (fs : List Field) :
    (mkCatalyst fs).methodOf .load = "load" := rfl

/-- Default-option schemas leave `all_errors` true. -/
theorem mkCatalyst_all_errors (fs : List Field) :
    (mkCatalyst fs).all_errors = true := rfl

/-- Default-option schemas leave `raise_error` false. -/
theorem mkCatalyst_raise_error (fs : List Field) :
    (mkCatalyst fs).raise_error = false := rfl

/-- Default-option schemas have identity single-item pre hooks. -/
theorem mkCatalyst_preHookOne_fst (fs : List Field) (d : Direction) (u : Val) :
    ((mkCatalyst fs).preHookOne d).1 u = .ok u := by
  cases d <;> rfl

/-- Default-option schemas have identity single-item post hooks. -/
theorem mkCatalyst_postHookOne_fst (fs : List Field) (d : Direction) (u : Val) :
    ((mkCatalyst fs).postHookOne d).1 u = .ok u := by
  cases d <;> rfl

/-! ## Concrete fields and schemas used as witnesses and counterexamples -/

/-- A plain field with every option at its default. -/
def exField : Field := { name := "a", key := "a" }

/-- A field rejecting `None`, whose parser would produce `7` if it were ever
applied to the input. -/
def exNoNoneField : Field :=
  { name := "a", key := "a"
    opts := { allow_none := false, parser := fun _ => .ok (.vint 7) } }

/-- A load-required field named and keyed `a`. -/
def reqAField : Field :=
  { name := "a", key := "a", opts := { load_required := true } }

/-- A load-required field named and keyed `b`. -/
def reqBField : Field :=
  { name := "b", key := "b", opts := { load_required := true } }

/-- A default-option schema requiring field `a` on load. -/
def reqACatalyst : Catalyst := mkCatalyst [reqAField]

/-- A validator that rejects every value. -/
def rejectAll : ValidatorFn := fun _ => .error (.vexcOther "boom")

/-- A field with default options plus an always-failing validator. -/
def vetoField : Field :=
  { name := "a", key := "a", opts := { validators := [rejectAll] } }

/-- A default-option schema holding only `vetoField`. -/
def vetoCatalyst : Catalyst := mkCatalyst [vetoField]

/-! ## Claims -/

/-- C10: whenever `Field.validate` returns without raising, the returned
value is the input value itself — validators run for effect only, and
`None` with `allow_none` comes back as `None`; `validate` is the identity
on accepted values. -/
theorem claimC10 (f : Field) (v w : Val) (h : f.validate v = .ok w) : w = v :=
  validate_ok_identity f v w h

/-- Witness for C10: a concrete field accepting a concrete value returns it
unchanged. -/
theorem claimC10_witness :
    exField.validate (.vint 3) = .ok (.vint 3) ∧ Val.vint 3 = Val.vint 3 :=
  ⟨rfl, claimC10 exField (.vint 3) (.vint 3) rfl⟩

/-- C6: loading `None` with `allow_none = false` (default `parse_none`)
fails with the `none`-kind error, the parser never touching the value
(the parser is arbitrary here); with `allow_none = true` loading and
dumping `None` (default `parse_none`/`format_none`) return `None`
untouched by parser and formatter. -/
theorem claimC6 (f : Field) :
    (f.opts.parse_none = false → f.opts.allow_none = false →
      f.load .vnone = .error (f.get_error "none")) ∧
    (f.opts.parse_none = false → f.opts.allow_none = true →
      f.load .vnone = .ok .vnone) ∧
    (f.opts.format_none = false → f.opts.allow_none = true →
      f.dump .vnone = .ok .vnone) := by
  refine ⟨fun h1 h2 => ?_, fun h1 h2 => ?_, fun h1 h2 => ?_⟩ <;>
    simp [Field.load, Field.dump, Field.parse, Field.format, Field.validate,
      h1, h2, Bind.bind, Except.bind, Pure.pure, Except.pure, Functor.map,
      Except.map]

/-- Witness for C6 at concrete fields: `exNoNoneField` rejects `None`
without parsing it; `exField` passes `None` through on load and dump. -/
theorem claimC6_witness :
    (exNoNoneField.opts.parse_none = false ∧ exNoNoneField.opts.allow_none = false ∧
      exNoNoneField.load .vnone = .error (exNoNoneField.get_error "none")) ∧
    (exField.opts.parse_none = false ∧ exField.opts.allow_none = true ∧
      exField.load .vnone = .ok .vnone ∧ exField.dump .vnone = .ok .vnone) :=
  ⟨⟨rfl, rfl, (claimC6 exNoNoneField).1 rfl rfl⟩,
   ⟨rfl, rfl, (claimC6 exField).2.1 rfl rfl, (claimC6 exField).2.2 rfl rfl⟩⟩

/-- C3: loading `{}` against a schema with one load-required field that has
no load default returns an invalid result whose errors map the field's
key to the `required`-kind error. -/
theorem claimC3 (f : Field)
    (h1 : f.opts.load_required = true)
    (h2 : f.opts.load_default = .vmissing) :
    (mkCatalyst [f]).load (.vdict []) none none =
      .ok ⟨.vdict [], .vdict [(f.key, f.get_error "required")], .vdict []⟩ ∧
    CatResult.is_valid
      ⟨.vdict [], .vdict [(f.key, f.get_error "required")], .vdict []⟩ = false := by
  have hpo : processOne (mkCatalyst [f]) .load (.vdict []) true =
      ([], [(f.key, f.get_error "required")], []) := by
    simp [processOne, mkCatalyst_fieldDict, processFields, Direction.sourceAttr,
      Direction.defaultOf, Direction.requiredOf, getValue, dget, h1, h2,
      Val.isMissing, dset]
  refine ⟨?_, rfl⟩
  rw [Catalyst.load, processFlowOne_ok (mkCatalyst [f]) .load (.vdict []) none none rfl]
  have hae : optGet (none : Option Bool) (mkCatalyst [f]).all_errors = true := rfl
  rw [hae, flowResultOne_of_processOne_err _ _ _ _ _ _ _
    (mkCatalyst_preHookOne_fst _ _ _) hpo (by simp)]

/-- Witness for C3 at the concrete schema requiring `a`. -/
theorem claimC3_witness :
    reqAField.opts.load_required = true ∧
    reqAField.opts.load_default = .vmissing ∧
    reqACatalyst.load (.vdict []) none none =
      .ok ⟨.vdict [], .vdict [("a", reqAField.get_error "required")], .vdict []⟩ :=
  ⟨rfl, rfl, (claimC3 reqAField rfl rfl).1⟩

/-- C4: with two independently failing load-required fields and no data,
collect-all (`all_errors = true`) produces exactly the two error
entries, fail-fast (`all_errors = false`) stops after the first. -/
theorem claimC4 (f g : Field)
    (h1 : f.opts.load_required = true) (h2 : f.opts.load_default = .vmissing)
    (h3 : g.opts.load_required = true) (h4 : g.opts.load_default = .vmissing)
    (hk : f.key ≠ g.key) :
    (mkCatalyst [f, g]).load (.vdict []) none (some true) =
      .ok ⟨.vdict [],
           .vdict [(f.key, f.get_error "required"), (g.key, g.get_error "required")],
           .vdict []⟩ ∧
    (mkCatalyst [f, g]).load (.vdict []) none (some false) =
      .ok ⟨.vdict [], .vdict [(f.key, f.get_error "required")], .vdict []⟩ := by
  constructor
  · have hpo : processOne (mkCatalyst [f, g]) .load (.vdict []) true =
        ([], [(f.key, f.get_error "required"), (g.key, g.get_error "required")], []) := by
      simp [processOne, mkCatalyst_fieldDict, processFields, Direction.sourceAttr,
        Direction.defaultOf, Direction.requiredOf, getValue, dget, h1, h2, h3, h4,
        Val.isMissing, dset, hk]
    rw [Catalyst.load,
      processFlowOne_ok (mkCatalyst [f, g]) .load (.vdict []) none (some true) rfl]
    have hae : optGet (some true) (mkCatalyst [f, g]).all_errors = true := rfl
    rw [hae, flowResultOne_of_processOne_err _ _ _ _ _ _ _
      (mkCatalyst_preHookOne_fst _ _ _) hpo (by simp)]
  · have hpo : processOne (mkCatalyst [f, g]) .load (.vdict []) false =
        ([], [(f.key, f.get_error "required")], []) := by
      simp [processOne, mkCatalyst_fieldDict, processFields, Direction.sourceAttr,
        Direction.defaultOf, Direction.requiredOf, getValue, dget, h1, h2,
        Val.isMissing, dset]
    rw [Catalyst.load,
      processFlowOne_ok (mkCatalyst [f, g]) .load (.vdict []) none (some false) rfl]
    have hae : optGet (some false) (mkCatalyst [f, g]).all_errors = false := rfl
    rw [hae, flowResultOne_of_processOne_err _ _ _ _ _ _ _
      (mkCatalyst_preHookOne_fst _ _ _) hpo (by simp)]

/-- Witness for C4 at the concrete pair of required fields `a` and `b`. -/
theorem claimC4_witness :
    reqAField.opts.load_required = true ∧ reqBField.opts.load_required = true ∧
    (mkCatalyst [reqAField, reqBField]).load (.vdict []) none (some true) =
      .ok ⟨.vdict [],
           .vdict [("a", reqAField.get_error "required"), ("b", reqBField.get_error "required")],
           .vdict []⟩ ∧
    (mkCatalyst [reqAField, reqBField]).load (.vdict []) none (some false) =
      .ok ⟨.vdict [], .vdict [("a", reqAField.get_error "required")], .vdict []⟩ := by
  have h := claimC4 reqAField reqBField rfl rfl rfl rfl (by decide)
  exact ⟨rfl, rfl, h.1, h.2⟩

/-- C7: per-field failures never escape the single-item flow — with
`raise_error` false the flow returns the aggregated result normally, and
with `raise_error` true exactly that result (whose `is_valid` is false
when errors exist) is raised as the exception payload. -/
theorem claimC7 (c : Catalyst) (d : Direction) (data : Val) (ae : Option Bool) :
    (processFlowOne c d data (some false) ae =
      .ok (flowResultOne c d data (optGet ae c.all_errors))) ∧
    (∀ r, processFlowOne c d data (some false) ae = .ok r →
      (r.is_valid = false → processFlowOne c d data (some true) ae = .error r) ∧
      (r.is_valid = true → processFlowOne c d data (some true) ae = .ok r)) := by
  have h0 : processFlowOne c d data (some false) ae =
      .ok (flowResultOne c d data (optGet ae c.all_errors)) :=
    processFlowOne_ok c d data (some false) ae rfl
  refine ⟨h0, fun r hr => ?_⟩
  rw [h0] at hr
  have hr' : r = flowResultOne c d data (optGet ae c.all_errors) :=
    (Except.ok.injEq _ _ ▸ hr).symm
  subst hr'
  rw [CatResult.is_valid]
  constructor
  · intro hv
    simp only [optGet] at hv
    simp [processFlowOne, optGet, hv]
  · intro hv
    simp only [optGet] at hv
    simp [processFlowOne, optGet, hv]

/-- Witness for C7: the required-field schema on empty input returns
normally with `raise_error` false and raises the same result with
`raise_error` true. -/
theorem claimC7_witness :
    (processFlowOne reqACatalyst .load (.vdict []) (some false) none =
      .ok (flowResultOne reqACatalyst .load (.vdict [])
        (optGet none reqACatalyst.all_errors))) ∧
    processFlowOne reqACatalyst .load (.vdict []) (some true) none =
      .error (flowResultOne reqACatalyst .load (.vdict [])
        (optGet none reqACatalyst.all_errors)) :=
  ⟨(claimC7 reqACatalyst .load (.vdict []) none).1,
   (((claimC7 reqACatalyst .load (.vdict []) none).2 _ rfl).1 rfl)⟩

/-- Every declared key of a dict is found by lookup. -/
theorem dget_isSome_of_mem_keys {κ α : Type} [DecidableEq κ] :
    ∀ (l : List (κ × α)) (k : κ), k ∈ l.map Prod.fst →
      (dget l k).isSome = true := by
  intro l
  induction l with
  | nil => intro k hk; simp at hk
  | cons p rest ih =>
    obtain ⟨k', v⟩ := p
    intro k hk
    by_cases he : k' = k
    · simp [dget, he]
    · simp only [List.map_cons] at hk
      cases hk with
      | head => exact absurd rfl he
      | tail _ h =>
        simp only [dget, if_neg he]
        exact ih k h

/-- `_copy_fields` succeeds whenever every requested key is declared. -/
theorem copyFields_ok (fd : List (String × Field)) (keep : Field → Bool) :
    ∀ (keys : List String) (acc : List (String × Field)),
    (∀ k ∈ keys, (dget fd k).isSome = true) →
    ∃ l, copyFields fd keep keys acc = .ok l := by
  intro keys
  induction keys with
  | nil => intro acc _; exact ⟨acc, rfl⟩
  | cons k rest ih =>
    intro acc hk
    have h0 := hk k (List.mem_cons_self _ _)
    cases hg : dget fd k with
    | none => rw [hg] at h0; simp at h0
    | some f =>
      simp only [copyFields, hg]
      exact ih _ (fun k' hk' => hk k' (List.mem_cons_of_mem _ hk'))

/-- C9: construction (with no explicit field subsets, so registry copying
cannot fail) raises `ValueError` exactly when the effective `dump_method`
is outside `'dump'`/`'format'`/`'validate'` or the effective
`load_method` is outside `'load'`/`'parse'`/`'validate'`; otherwise the
checks pass and construction succeeds. -/
theorem claimC9 (fd : List (String × Field)) (re ae : Option Bool)
    (dm lm : Option String) :
    ((¬(optGet dm "format" = "dump" ∨ optGet dm "format" = "format" ∨
        optGet dm "format" = "validate") ∨
      ¬(optGet lm "load" = "load" ∨ optGet lm "load" = "parse" ∨
        optGet lm "load" = "validate")) →
      catalystInit fd none none none re ae dm lm = .error .valueError) ∧
    ((optGet dm "format" = "dump" ∨ optGet dm "format" = "format" ∨
      optGet dm "format" = "validate") →
     (optGet lm "load" = "load" ∨ optGet lm "load" = "parse" ∨
      optGet lm "load" = "validate") →
      ∃ c, catalystInit fd none none none re ae dm lm = .ok c) := by
  obtain ⟨ld, hld⟩ := copyFields_ok fd (fun f => !f.opts.no_dump)
    (fd.map Prod.fst) [] (fun k hk => dget_isSome_of_mem_keys fd k hk)
  obtain ⟨ll, hll⟩ := copyFields_ok fd (fun f => !f.opts.no_load)
    (fd.map Prod.fst) [] (fun k hk => dget_isSome_of_mem_keys fd k hk)
  constructor
  · intro hbad
    simp only [catalystInit, orKeys, hld, hll]
    rcases hbad with h | h
    · push_neg at h
      rw [if_pos ⟨h.1, h.2.1, h.2.2⟩]
    · push_neg at h
      by_cases hdm : optGet dm "format" ≠ "dump" ∧ optGet dm "format" ≠ "format" ∧
          optGet dm "format" ≠ "validate"
      · rw [if_pos hdm]
      · rw [if_neg hdm, if_pos ⟨h.1, h.2.1, h.2.2⟩]
  · intro hdm hlm
    simp only [catalystInit, orKeys, hld, hll]
    rw [if_neg, if_neg]
    · exact ⟨_, rfl⟩
    · intro hc
      rcases hlm with h | h | h
      · exact hc.1 h
      · exact hc.2.1 h
      · exact hc.2.2 h
    · intro hc
      rcases hdm with h | h | h
      · exact hc.1 h
      · exact hc.2.1 h
      · exact hc.2.2 h

/-- Witness for C9: an unknown dump method is rejected with `ValueError`;
the defaults construct successfully. -/
theorem claimC9_witness :
    catalystInit [("a", exField)] none none none none none (some "bogus") none =
      .error .valueError ∧
    ∃ c, catalystInit [("a", exField)] none none none none none none none = .ok c :=
  ⟨(claimC9 [("a", exField)] none none (some "bogus") none).1
     (Or.inl (by simp [optGet])),
   (claimC9 [("a", exField)] none none none none).2
     (Or.inr (Or.inl rfl)) (Or.inl rfl)⟩

/-- C1 counterexample: under default options (`dump_method = 'format'`,
`catalyst.py` line 23) dumping `{'a': 1}` through a field whose validator
rejects every value succeeds and stores the formatted raw value, while
the field's `dump` operation (validate, then format) raises on that same
value — so the stored result was not produced by invoking `dump`. -/
theorem claimC1_counterexample :
    vetoCatalyst.dump (.vdict [("a", .vint 1)]) none none =
      .ok ⟨.vdict [("a", .vint 1)], .vnone, .vnone⟩ ∧
    vetoField.dump (.vint 1) = .error (.vexcOther "boom") := ⟨rfl, rfl⟩

/-- C1 (amended): for every schema with default options, processing a
single-item dump invokes the field's `format` operation (the default
`dump_method` is `'format'`; `validate` is not run) on each non-missing
raw value and stores the result in valid data under the field's key.
The first clause states this for an arbitrary field inside the loop, the
second for the whole flow on a one-field schema. -/
theorem claimC1 :
    (∀ (c : Catalyst) (f : Field) (rest : List Field) (data : Val) (ae : Bool)
       (valid errors invalid : List (String × Val)) (v w : Val),
      c.dump_method = "format" →
      getValue data f.name f.opts.dump_default = v →
      v.isMissing = false →
      f.format v = .ok w →
      processFields c .dump data ae (f :: rest) (valid, errors, invalid) =
        processFields c .dump data ae rest (dset valid f.key w, errors, invalid)) ∧
    (∀ (f : Field) (m : List (String × Val)) (v w : Val),
      dget m f.name = some v →
      v.isMissing = false →
      f.format v = .ok w →
      (mkCatalyst [f]).dump (.vdict m) none none =
        .ok ⟨.vdict [(f.key, w)], .vnone, .vnone⟩) := by
  constructor
  · intro c f rest data ae valid errors invalid v w hm hget hmiss hfmt
    have happ : f.applyMethod (c.methodOf .dump) v = .ok w := by
      rw [Catalyst.methodOf, hm, applyMethod_format, hfmt]
    simp only [processFields, Direction.sourceAttr, Direction.defaultOf,
      Direction.targetAttr, hget, hmiss, happ, Bool.false_eq_true, if_false]
  · intro f m v w h1 h2 h3
    have hget : getValue (.vdict m) f.name f.opts.dump_default = v := by
      simp [getValue, h1]
    have happ : f.applyMethod ((mkCatalyst [f]).methodOf .dump) v = .ok w := by
      rw [mkCatalyst_methodOf_dump, applyMethod_format, h3]
    have hpo : processOne (mkCatalyst [f]) .dump (.vdict m) true =
        ([(f.key, w)], [], []) := by
      simp only [processOne, mkCatalyst_fieldDict, processFields,
        Direction.sourceAttr, Direction.defaultOf, Direction.targetAttr,
        hget, h2, happ, Bool.false_eq_true, if_false, dset]
    rw [Catalyst.dump, processFlowOne_ok (mkCatalyst [f]) .dump (.vdict m) none none rfl]
    have hae : optGet (none : Option Bool) (mkCatalyst [f]).all_errors = true := rfl
    rw [hae, flowResultOne_of_processOne _ _ _ _ _
      (mkCatalyst_preHookOne_fst _ _ _) (mkCatalyst_postHookOne_fst _ _) hpo]

/-- Witness for C1 (amended) at the veto field: format succeeds, the result
lands under the key, and the rejected validator is never consulted. -/
theorem claimC1_witness :
    dget [("a", Val.vint 1)] vetoField.name = some (.vint 1) ∧
    (Val.vint 1).isMissing = false ∧
    vetoField.format (.vint 1) = .ok (.vint 1) ∧
    (mkCatalyst [vetoField]).dump (.vdict [("a", .vint 1)]) none none =
      .ok ⟨.vdict [(vetoField.key, .vint 1)], .vnone, .vnone⟩ :=
  ⟨rfl, rfl, rfl, claimC1.2 vetoField [("a", .vint 1)] (.vint 1) (.vint 1) rfl rfl rfl⟩

/-- The inner load-required field `x` of the nested counterexample. -/
def innerReqField : Field :=
  { name := "x", key := "x", opts := { load_required := true } }

/-- The inner schema of the nested counterexample. -/
def innerReqCatalyst : Catalyst := mkCatalyst [innerReqField]

/-- A Nested field over `innerReqCatalyst` whose name `n` and key `k`
differ, making source and target identifiers observably distinct. -/
def nkNestedField : Field := nestedField innerReqCatalyst "n" "k"

/-- The outer schema of the nested counterexample. -/
def nkCatalyst : Catalyst := mkCatalyst [nkNestedField]

/-- C2 counterexample: loading `{'k': {}}` through the Nested field with
name `n`, key `k` (load source = key = `k`, load target = name = `n`)
splices the inner errors and invalid data at `k` but the inner valid
data at `n` — the nested valid data is not keyed by the source
identifier, so the three-way source-keyed splice the claim states does
not happen. -/
theorem claimC2_counterexample :
    nkCatalyst.load (.vdict [("k", .vdict [])]) none none =
      .ok ⟨.vdict [("n", .vdict [])],
           .vdict [("k", .vdict [("x", innerReqField.get_error "required")])],
           .vdict [("k", .vdict [])]⟩ ∧
    dget [("n", Val.vdict [])] "k" = none := ⟨rfl, rfl⟩

/-- An arm case split for `catchErr`: an error that does not carry a nested
result is recorded raw, with the raw input echoed as invalid data. -/
theorem catchErr_other (valid errors invalid : List (String × Val))
    (source target : String) (raw e : Val)
    (h : isNestedResultErr e = false) :
    catchErr valid errors invalid source target raw e =
      (valid, dset errors source e, dset invalid source raw) := by
  unfold catchErr
  split
  · rename_i vd er iv
    simp [isNestedResultErr] at h
  · rfl

/-- C2 (amended): in the single-item loop, a transform failure carrying a
nested Result is spliced with the nested errors and invalid data keyed
by the field's source identifier (dump source = name, load source = key)
and the nested valid data keyed by the field's *target* identifier; any
other exception is recorded as the error with the raw input as invalid
data, both keyed by the source identifier. -/
theorem claimC2 :
    (∀ (c : Catalyst) (d : Direction) (f : Field) (data : Val) (ae : Bool)
       (valid errors invalid : List (String × Val)) (raw vd er iv : Val),
      getValue data (d.sourceAttr f) (d.defaultOf f) = raw →
      raw.isMissing = false →
      f.applyMethod (c.methodOf d) raw =
        .error (.vexcValidation (.vresult vd er iv)) →
      processFields c d data ae [f] (valid, errors, invalid) =
        (dset valid (d.targetAttr f) vd, dset errors (d.sourceAttr f) er,
         dset invalid (d.sourceAttr f) iv)) ∧
    (∀ (c : Catalyst) (d : Direction) (f : Field) (data : Val) (ae : Bool)
       (valid errors invalid : List (String × Val)) (raw e : Val),
      getValue data (d.sourceAttr f) (d.defaultOf f) = raw →
      raw.isMissing = false →
      f.applyMethod (c.methodOf d) raw = .error e →
      isNestedResultErr e = false →
      processFields c d data ae [f] (valid, errors, invalid) =
        (valid, dset errors (d.sourceAttr f) e,
         dset invalid (d.sourceAttr f) raw)) := by
  constructor
  · intro c d f data ae valid errors invalid raw vd er iv hget hmiss happ
    simp only [processFields, hget, hmiss, happ, Bool.false_eq_true, if_false,
      catchErr]
    cases ae <;> simp [processFields]
  · intro c d f data ae valid errors invalid raw e hget hmiss happ hne
    simp only [processFields, hget, hmiss, happ, Bool.false_eq_true, if_false,
      catchErr_other _ _ _ _ _ _ _ hne]
    cases ae <;> simp [processFields]

/-- A field whose parser raises a plain (non-nested) exception. -/
def failParseField : Field :=
  { name := "p", key := "p"
    opts := { parser := fun _ => .error (.vexcOther "bad") } }

/-- Witness for C2 (amended): the nested splice at the concrete Nested
field with distinct name and key, and the raw-exception path at a field
whose parser raises. -/
theorem claimC2_witness :
    (nkNestedField.applyMethod (nkCatalyst.methodOf .load) (.vdict []) =
      .error (.vexcValidation (.vresult (.vdict [])
        (.vdict [("x", innerReqField.get_error "required")]) (.vdict []))) ∧
     processFields nkCatalyst .load (.vdict [("k", .vdict [])]) true
        [nkNestedField] ([], [], []) =
       ([("n", .vdict [])],
        [("k", .vdict [("x", innerReqField.get_error "required")])],
        [("k", .vdict [])]) ∧
     Direction.targetAttr .load nkNestedField = "n" ∧
     Direction.sourceAttr .load nkNestedField = "k") ∧
    (failParseField.applyMethod ((mkCatalyst [failParseField]).methodOf .load)
        (.vint 5) = .error (.vexcOther "bad") ∧
     processFields (mkCatalyst [failParseField]) .load
        (.vdict [("p", .vint 5)]) true [failParseField] ([], [], []) =
       ([], [("p", .vexcOther "bad")], [("p", .vint 5)])) :=
  ⟨⟨rfl,
    claimC2.1 nkCatalyst .load nkNestedField (.vdict [("k", .vdict [])]) true
      [] [] [] (.vdict []) (.vdict [])
      (.vdict [("x", innerReqField.get_error "required")]) (.vdict [])
      rfl rfl rfl,
    rfl, rfl⟩,
   ⟨rfl,
    claimC2.2 (mkCatalyst [failParseField]) .load failParseField
      (.vdict [("p", .vint 5)]) true [] [] [] (.vint 5) (.vexcOther "bad")
      rfl rfl rfl rfl⟩⟩

/-- C5: batch load pushes each item through the full single-item flow with
`raise_error` forced false (third clause, the loop step); failures are
keyed by the item's index — `load_many [{'a': 1}, {}]` against the
schema requiring `a` errors only at index 1 with item 0 intact (first
clause); with `all_errors` false the iteration stops at the first
failing item (second clause: only index 0 is reached). -/
theorem claimC5 :
    (reqACatalyst.load_many (.vlist [.vdict [("a", .vint 1)], .vdict []]) none none =
      .ok ⟨.vlist [.vdict [("a", .vint 1)], .vdict []],
           .vidict [(1, .vdict [("a", reqAField.get_error "required")])],
           .vidict [(1, .vdict [])]⟩) ∧
    (reqACatalyst.load_many (.vlist [.vdict [], .vdict []]) none (some false) =
      .ok ⟨.vlist [.vdict []],
           .vidict [(0, .vdict [("a", reqAField.get_error "required")])],
           .vidict [(0, .vdict [])]⟩) ∧
    (∀ (c : Catalyst) (d : Direction) (ae : Bool) (item : Val) (rest : List Val)
       (i : Nat) (vs : List Val) (es inv : List (Nat × Val)),
      manyLoop c d ae (item :: rest) i (vs, es, inv) =
        match processFlowOne c d item (some false) (some ae) with
        | .ok r | .error r =>
          if r.is_valid then
            manyLoop c d ae rest (i + 1) (vs ++ [r.valid_data], es, inv)
          else if ae then
            manyLoop c d ae rest (i + 1)
              (vs ++ [r.valid_data], dset es i r.errors, dset inv i r.invalid_data)
          else (vs ++ [r.valid_data], dset es i r.errors, dset inv i r.invalid_data)) := by
  refine ⟨rfl, rfl, ?_⟩
  intro c d ae item rest i vs es inv
  cases h : processFlowOne c d item (some false) (some ae) with
  | ok r => cases hv : r.is_valid <;> simp [manyLoop, h, hv]
  | error r => cases hv : r.is_valid <;> simp [manyLoop, h, hv]

/-- C8: for every schema whose fields all carry identity formatter/parser
pairs and for every input accepted by the validators, dumping then
loading the dumped valid data restores the original mapping — the data
round-trips through the key/name relabelling. -/
theorem claimC8 (entries : List (Field × Val))
    (hname : (entries.map fun p => p.1.name).Nodup)
    (hkey : (entries.map fun p => p.1.key).Nodup)
    (hfmt : ∀ p ∈ entries, ∀ u, p.1.opts.formatter u = .ok u)
    (hprs : ∀ p ∈ entries, ∀ u, p.1.opts.parser u = .ok u)
    (hval : ∀ p ∈ entries, (p.1.validate p.2).isOk = true)
    (hmiss : ∀ p ∈ entries, p.2.isMissing = false) :
    (mkCatalyst (entries.map Prod.fst)).dump
        (.vdict (entries.map fun p => (p.1.name, p.2))) none none =
      .ok ⟨.vdict (entries.map fun p => (p.1.key, p.2)), .vnone, .vnone⟩ ∧
    (mkCatalyst (entries.map Prod.fst)).load
        (.vdict (entries.map fun p => (p.1.key, p.2))) none none =
      .ok ⟨.vdict (entries.map fun p => (p.1.name, p.2)), .vnone, .vnone⟩ := by
  have hndx : ((entries.map fun p => (p.1.name, p.2)).map Prod.fst).Nodup := by
    rw [List.map_map]; exact hname
  have hndy : ((entries.map fun p => (p.1.key, p.2)).map Prod.fst).Nodup := by
    rw [List.map_map]; exact hkey
  constructor
  · have hpo : processOne (mkCatalyst (entries.map Prod.fst)) .dump
        (.vdict (entries.map fun p => (p.1.name, p.2))) true =
        (entries.map fun p => (Direction.targetAttr .dump p.1, p.2), [], []) := by
      rw [processOne, mkCatalyst_fieldDict]
      have := processFields_all_ok (mkCatalyst (entries.map Prod.fst)) .dump
        (.vdict (entries.map fun p => (p.1.name, p.2))) true entries []
        (fun p hp => by
          have hg := dget_of_nodup _ hndx (p.1.name, p.2)
            (List.mem_map.mpr ⟨p, hp, rfl⟩)
          simp [getValue, Direction.sourceAttr, Direction.defaultOf, hg])
        (fun p hp => hmiss p hp)
        (fun p hp => by
          rw [mkCatalyst_methodOf_dump, applyMethod_format]
          exact format_id p.1 (hfmt p hp) p.2)
        (fun p _ => rfl)
        (by simpa [Direction.targetAttr] using hkey)
      simpa using this
    rw [Catalyst.dump, processFlowOne_ok (mkCatalyst (entries.map Prod.fst)) .dump
      (.vdict (entries.map fun p => (p.1.name, p.2))) none none rfl]
    have hae : optGet (none : Option Bool)
        (mkCatalyst (entries.map Prod.fst)).all_errors = true := rfl
    rw [hae, flowResultOne_of_processOne _ _ _ _ _
      (mkCatalyst_preHookOne_fst _ _ _) (mkCatalyst_postHookOne_fst _ _) hpo]
    simp [Direction.targetAttr]
  · have hpo : processOne (mkCatalyst (entries.map Prod.fst)) .load
        (.vdict (entries.map fun p => (p.1.key, p.2))) true =
        (entries.map fun p => (Direction.targetAttr .load p.1, p.2), [], []) := by
      rw [processOne, mkCatalyst_fieldDict]
      have := processFields_all_ok (mkCatalyst (entries.map Prod.fst)) .load
        (.vdict (entries.map fun p => (p.1.key, p.2))) true entries []
        (fun p hp => by
          have hg := dget_of_nodup _ hndy (p.1.key, p.2)
            (List.mem_map.mpr ⟨p, hp, rfl⟩)
          simp [getValue, Direction.sourceAttr, Direction.defaultOf, hg])
        (fun p hp => hmiss p hp)
        (fun p hp => by
          rw [mkCatalyst_methodOf_load, applyMethod_load]
          exact load_id p.1 p.2 (hprs p hp) (hval p hp))
        (fun p _ => rfl)
        (by simpa [Direction.targetAttr] using hname)
      simpa using this
    rw [Catalyst.load, processFlowOne_ok (mkCatalyst (entries.map Prod.fst)) .load
      (.vdict (entries.map fun p => (p.1.key, p.2))) none none rfl]
    have hae : optGet (none : Option Bool)
        (mkCatalyst (entries.map Prod.fst)).all_errors = true := rfl
    rw [hae, flowResultOne_of_processOne _ _ _ _ _
      (mkCatalyst_preHookOne_fst _ _ _) (mkCatalyst_postHookOne_fst _ _) hpo]
    simp [Direction.targetAttr]

/-- An identity-like field named `a` externally keyed `A`. -/
def rtFieldA : Field := { name := "a", key := "A" }

/-- An identity-like field named `b` externally keyed `B`. -/
def rtFieldB : Field := { name := "b", key := "B" }

/-- The round-trip witness entries. -/
def rtEntries : List (Field × Val) :=
  [(rtFieldA, .vint 1), (rtFieldB, .vstr "s")]

/-- Witness for C8: a concrete two-field identity schema round-trips a
concrete mapping through its key relabelling. -/
theorem claimC8_witness :
    (mkCatalyst [rtFieldA, rtFieldB]).dump
        (.vdict [("a", .vint 1), ("b", .vstr "s")]) none none =
      .ok ⟨.vdict [("A", .vint 1), ("B", .vstr "s")], .vnone, .vnone⟩ ∧
    (mkCatalyst [rtFieldA, rtFieldB]).load
        (.vdict [("A", .vint 1), ("B", .vstr "s")]) none none =
      .ok ⟨.vdict [("a", .vint 1), ("b", .vstr "s")], .vnone, .vnone⟩ :=
  claimC8 rtEntries (by decide) (by decide)
    (by
      intro p hp u
      simp only [rtEntries, List.mem_cons, List.not_mem_nil, or_false] at hp
      rcases hp with rfl | rfl <;> rfl)
    (by
      intro p hp u
      simp only [rtEntries, List.mem_cons, List.not_mem_nil, or_false] at hp
      rcases hp with rfl | rfl <;> rfl)
    (by
      intro p hp
      simp only [rtEntries, List.mem_cons, List.not_mem_nil, or_false] at hp
      rcases hp with rfl | rfl <;> rfl)
    (by
      intro p hp
      simp only [rtEntries, List.mem_cons, List.not_mem_nil, or_false] at hp
      rcases hp with rfl | rfl <;> rfl)

end Fossen
